import Mathlib

/-!
# committers-nepal: query building, preset metadata and the run's dispatch

A shallow embedding of `src/top/top.go`, `src/presets.go` and `src/main.go`.

Conventions of the embedding:
* a Go `string` is a Lean `String` (the text is taken to be valid UTF-8), `+=`
  and `fmt.Sprintf` with `%s` are `++`;
* a Go `[]string` is a `List String` (a nil slice and an empty slice are both `[]`);
* a Go `int` is an `Int` (no arithmetic is done on any of them);
* a Go `error` is its message, `nil` is `none`;
* calls that leave the process (the search client, `os.Create`, the renderer)
  are functions handed in from outside, and every such call is recorded, in
  order, in the list of events a run returns; `log.Fatal` ends the run.
-/

set_option maxRecDepth 100000

namespace CommittersNepal

/-! ## package github (types used by `top.go`) -/

/-- Modelled from the spec: the user type of package `github` is declared
outside the sources at hand; the spec's CandidateUser has a login, a follower
count and a profile URL. -/
structure CandidateUser where
  login : String
  followerCount : Int
  profileURL : String
  deriving DecidableEq, Repr

/-- Modelled from the spec: `github.GithubSearchResults` is declared outside
the sources at hand; the spec's SearchResultSet is an ordered sequence of users
and the provider-reported match count. The Go zero value
`github.GithubSearchResults{}` is `⟨[], 0⟩`. -/
structure GithubSearchResults where
  users : List CandidateUser
  totalAvailable : Int
  deriving DecidableEq, Repr

/-- The zero value `github.GithubSearchResults{}`. -/
def GithubSearchResults.zero : GithubSearchResults := ⟨[], 0⟩

/-- The literal `github.UserSearchQuery{Q: ..., Sort: ..., Order: ..., MaxUsers: ...}`
built at `top.go:36`; the Go field `Sort` is `Sort_` here, `Sort` being a
keyword of Lean. -/
structure UserSearchQuery where
  Q : String
  Sort_ : String
  Order : String
  MaxUsers : Int
  deriving DecidableEq, Repr

/-- A Go `error`, by its message. -/
abbrev GoError := String

/-- What `github.NewGithubClient(net.TokenAuth(token)).SearchUsers(q)` returns:
the Go pair `(users, err)`. The client is built from the token, so the token is
its first argument. -/
abbrev SearchClient := String → UserSearchQuery → GithubSearchResults × Option GoError

/-! ## src/top/top.go -/

/-- `top.go:43-51`. -/
structure Options where
  Token : String
  Locations : List String
  ExcludeLocations : List String
  Amount : Int
  ConsiderNum : Int
  PresetTitle : String
  PresetChecksum : String
  deriving DecidableEq, Repr

/-- `top.go:11`. -/
def minFollowers : Int := 15

/-- The verb `%d` of `fmt.Sprintf` on an `int`: decimal digits, a leading `-`
when negative. -/
def fmtD (n : Int) : String := toString n

/-- The loop of `top.go:22-27`: `i` is the index of the element at the head of
the remaining list, `locationQuery` is the text built so far. -/
def locationQueryLoop : List String → Nat → String → String
  | [], _, locationQuery => locationQuery
  | location :: rest, i, locationQuery =>
      let locationQuery := if i > 0 then locationQuery ++ " OR " else locationQuery
      locationQueryLoop rest (i + 1) (locationQuery ++ ("location:" ++ location))

/-- The loop of `top.go:31-33`. -/
def excludeLoop : List String → String → String
  | [], query => query
  | location :: rest, query => excludeLoop rest (query ++ " -location:" ++ location)

/-- The text of `query` when `top.go:35` is reached (`top.go:19-33`). -/
def buildQuery (options : Options) : String :=
  let query := "type:user followers:>=" ++ fmtD minFollowers
  let query :=
    if options.Locations.length > 0 then
      let locationQuery := locationQueryLoop options.Locations 0 ""
      query ++ " (" ++ locationQuery ++ ")"
    else query
  excludeLoop options.ExcludeLocations query

/-- One `SearchUsers` call: the token the client was built from and the query
it was given. -/
structure SearchCall where
  token : String
  query : UserSearchQuery
  deriving DecidableEq, Repr

/-- What a call of `GithubTop` does and returns: the `SearchUsers` calls it
made, in order, and the Go pair `(results, err)`. -/
structure TopOutcome where
  searches : List SearchCall
  results : GithubSearchResults
  err : Option GoError
  deriving DecidableEq, Repr

/-- `top.go:13-41`. -/
def GithubTop (SearchUsers : SearchClient) (options : Options) : TopOutcome :=
  let token := options.Token
  if token = "" then
    ⟨[], GithubSearchResults.zero, some "Missing GITHUB token"⟩
  else
    let query := buildQuery options
    let q : UserSearchQuery := ⟨query, "followers", "desc", options.ConsiderNum⟩
    match SearchUsers token q with
    | (_, some err) => ⟨[⟨token, q⟩], GithubSearchResults.zero, some err⟩
    | (users, none) => ⟨[⟨token, q⟩], users, none⟩

/-! ## src/presets.go -/

/-- `presets.go:10-14`; the Go field `include` is `include_` here, `include`
being a keyword of Lean. -/
structure QueryPreset where
  title : String
  include_ : List String
  exclude : List String
  deriving DecidableEq, Repr

/-- `presets.go:16-21`: the map literal, as the list of its entries. The
`exclude` field is not set in the literal, so it is the nil slice. -/
def PRESETS : List (String × QueryPreset) :=
  [("nepal",
    ⟨"Nepal",
     ["nepal", "kathmandu", "pokhara", "lalitpur", "bharatpur", "birgunj", "biratnagar",
      "janakpur", "ghorahi"],
     []⟩)]

/-- `presets.go:23-25`: indexing a Go map with a missing key gives the zero
value of the element type. -/
def Preset (name : String) : QueryPreset :=
  match PRESETS.lookup name with
  | some preset => preset
  | none => ⟨"", [], []⟩

/-- The Unicode tables package `unicode` consults for runes above `0x7F`. -/
structure UnicodeTables where
  ToTitle : Char → Char
  IsLetter : Char → Bool
  IsDigit : Char → Bool
  IsSpace : Char → Bool

/-- Go's `unicode.ToTitle`: below `0x80` a lower-case letter loses `'a' - 'A'`
and every other rune is unchanged; above, the table decides. -/
def unicodeToTitle (u : UnicodeTables) (r : Char) : Char :=
  if r.toNat ≤ 0x7F then
    if 'a'.toNat ≤ r.toNat ∧ r.toNat ≤ 'z'.toNat then Char.ofNat (r.toNat - ('a'.toNat - 'A'.toNat))
    else r
  else u.ToTitle r

/-- Go's `isSeparator` of package `strings`. -/
def isSeparator (u : UnicodeTables) (r : Char) : Bool :=
  if r.toNat ≤ 0x7F then
    if '0'.toNat ≤ r.toNat ∧ r.toNat ≤ '9'.toNat then false
    else if 'a'.toNat ≤ r.toNat ∧ r.toNat ≤ 'z'.toNat then false
    else if 'A'.toNat ≤ r.toNat ∧ r.toNat ≤ 'Z'.toNat then false
    else if r = '_' then false
    else true
  else if u.IsLetter r || u.IsDigit r then false
  else u.IsSpace r

/-- The closure `strings.Title` maps over the runes, `prev` being its state. -/
def titleLoop (u : UnicodeTables) : Char → List Char → List Char
  | _, [] => []
  | prev, r :: rest =>
      (if isSeparator u prev then unicodeToTitle u r else r) :: titleLoop u r rest

/-- Go's `strings.Title`: `prev` starts as a blank. -/
def stringsTitle (u : UnicodeTables) (s : String) : String :=
  String.mk (titleLoop u ' ' s.data)

/-- `presets.go:27-33`. -/
def PresetTitle (u : UnicodeTables) (name : String) : String :=
  let title := (Preset name).title
  let title := if title = "" then stringsTitle u name else title
  title

/-- The elements of a slice as `fmt` prints them under `%v`: a blank before
every element but the first. -/
def fmtElems : List String → String
  | [] => ""
  | [x] => x
  | x :: y :: rest => x ++ " " ++ fmtElems (y :: rest)

/-- A `[]string` under `%v` and `%+v`: the elements between brackets. -/
def fmtSlice (l : List String) : String := "[" ++ fmtElems l ++ "]"

/-- The text `fmt.Sprintf("%+v", preset)` of `presets.go:37`: the fields by
name, a blank between them, between braces. -/
def fmtPlusV (p : QueryPreset) : String :=
  "\x7btitle:" ++ p.title ++ " include:" ++ fmtSlice p.include_ ++ " exclude:" ++
    fmtSlice p.exclude ++ "\x7d"

/-- One hexadecimal digit, lower case. -/
def hexDigit (n : Nat) : Char :=
  if n < 10 then Char.ofNat ('0'.toNat + n) else Char.ofNat ('a'.toNat + (n - 10))

/-- The verb `%x` on a byte slice: two digits a byte. -/
def fmtX (bytes : List Nat) : String :=
  String.mk (bytes.flatMap fun b => [hexDigit (b / 16 % 16), hexDigit (b % 16)])

/-- The body of `PresetChecksum` on a preset definition (`presets.go:36-38`);
`sha256` is the digest of package `crypto/sha256`, as bytes. -/
def checksumOf (sha256 : String → List Nat) (preset : QueryPreset) : String :=
  fmtX (sha256 (fmtPlusV preset))

/-- `presets.go:35-39`. -/
def PresetChecksum (sha256 : String → List Nat) (name : String) : String :=
  checksumOf sha256 (Preset name)

/-! ## src/main.go -/

/-- The renderers of package `output` that `main` can select. -/
inductive Format
  | PlainOutput
  | YamlOutput
  | CsvOutput
  deriving DecidableEq, Repr

/-- Where the `bufio.Writer` of `main.go:44-54` writes. -/
inductive Destination
  | stdout
  | file (fileName : String)
  deriving DecidableEq, Repr

/-- The flag values after `flag.Parse()` (`main.go:15-21`). -/
structure Args where
  token : String
  amount : Int
  considerNum : Int
  outputOpt : String
  fileName : String
  deriving DecidableEq, Repr

/-- Everything `main` reaches outside the sources at hand. -/
structure World where
  SearchUsers : SearchClient
  sha256 : String → List Nat
  unicode : UnicodeTables
  osCreate : String → Option GoError
  render : Format → GithubSearchResults → Destination → Options → Option GoError

/-- The calls of a run, in order: the call of `top.GithubTop` and the calls
that leave the process. -/
inductive Event
  | githubTop (options : Options)
  | search (call : SearchCall)
  | create (fileName : String)
  | render (format : Format) (data : GithubSearchResults) (dest : Destination) (opts : Options)
  | flush
  deriving DecidableEq, Repr

/-- A run of `main`: the events up to its end and, when it ended in
`log.Fatal`, the message logged. -/
structure Run where
  events : List Event
  fatal : Option String
  deriving DecidableEq, Repr

/-- `main.go:23-33`: the renderer the `-output` flag selects; `none` is the
last branch, the one that ends in `log.Fatal`. -/
def selectFormat (outputOpt : String) : Option Format :=
  if outputOpt = "plain" then some Format.PlainOutput
  else if outputOpt = "yaml" then some Format.YamlOutput
  else if outputOpt = "csv" then some Format.CsvOutput
  else none

/-- `main.go:35-37`: the options of the run, always from the preset `nepal`. -/
def runOptions (w : World) (a : Args) : Options :=
  let nepal := Preset "nepal"
  ⟨a.token, nepal.include_, nepal.exclude, a.amount, a.considerNum,
   PresetTitle w.unicode "nepal", PresetChecksum w.sha256 "nepal"⟩

/-- `main.go:44-60`: the writer is opened, the renderer is called with the
data, the writer and the options, and the writer is flushed. The deferred
`f.Close()` is not recorded. -/
def writeReport (w : World) (a : Args) (format : Format) (data : GithubSearchResults)
    (opts : Options) : Run :=
  if a.fileName ≠ "" then
    match w.osCreate a.fileName with
    | some err => ⟨[Event.create a.fileName], some err⟩
    | none =>
      let dest := Destination.file a.fileName
      match w.render format data dest opts with
      | some err => ⟨[Event.create a.fileName, Event.render format data dest opts], some err⟩
      | none =>
          ⟨[Event.create a.fileName, Event.render format data dest opts, Event.flush], none⟩
  else
    let dest := Destination.stdout
    match w.render format data dest opts with
    | some err => ⟨[Event.render format data dest opts], some err⟩
    | none => ⟨[Event.render format data dest opts, Event.flush], none⟩

/-- `main.go:14-61`. -/
def main (w : World) (a : Args) : Run :=
  match selectFormat a.outputOpt with
  | none => ⟨[], some ("Unrecognized output format: " ++ a.outputOpt)⟩
  | some format =>
    let opts := runOptions w a
    let top := GithubTop w.SearchUsers opts
    let searched := Event.githubTop opts :: top.searches.map Event.search
    match top.err with
    | some err => ⟨searched, some err⟩
    | none =>
      let data := top.results
      let report := writeReport w a format data opts
      ⟨searched ++ report.events, report.fatal⟩

/-! ## The specification's wording of the query text -/

/-- The query text in the words of the specification: the base clause, then
the parenthesised OR-group when there is an included location, then one
` -location:` clause for every excluded location. -/
def specQuery (locations excludeLocations : List String) : String :=
  "type:user followers:>=15" ++
    (if locations.length > 0 then
      " (" ++ " OR ".intercalate (locations.map fun l => "location:" ++ l) ++ ")"
     else "") ++
    String.join (excludeLocations.map fun x => " -location:" ++ x)

/-! ## The specification's wording of a changed preset -/

/-- Two preset definitions that differ only in one excluded location: the
titles and the include lists are the same, and the exclude lists are the same
but for one entry, which is changed, added or removed. -/
def DifferInOneExclude (p q : QueryPreset) : Prop :=
  p.title = q.title ∧ p.include_ = q.include_ ∧
  ∃ (pre post : List String) (x y : String),
    (p.exclude = pre ++ x :: post ∧ q.exclude = pre ++ y :: post ∧ x ≠ y) ∨
    (p.exclude = pre ++ post ∧ q.exclude = pre ++ x :: post) ∨
    (p.exclude = pre ++ x :: post ∧ q.exclude = pre ++ post)

/-! ## Sample inputs -/

/-- Two users, in the provider's order. -/
def twoUsers : GithubSearchResults :=
  ⟨[⟨"a", 30, "https://github.com/a"⟩, ⟨"b", 20, "https://github.com/b"⟩], 2⟩

/-- A client that finds `twoUsers` and reports no error. -/
def clientTwo : SearchClient := fun _ _ => (twoUsers, none)

/-- A client that reports an error next to a non-empty result. -/
def clientFails : SearchClient := fun _ _ => (twoUsers, some "search failed")

/-- Tables that leave every rune above `0x7F` alone. -/
def asciiTables : UnicodeTables := ⟨id, fun _ => false, fun _ => false, fun _ => false⟩

/-- A world where the search finds `twoUsers` and nothing fails. -/
def sampleWorld : World :=
  ⟨clientTwo, fun s => s.data.map fun c => c.toNat % 256, asciiTables, fun _ => none,
   fun _ _ _ _ => none⟩

/-- A run that asks for one user to be shown, on standard output. -/
def showOneArgs : Args := ⟨"t", 1, 1000, "plain", ""⟩

/-- A run with a token and an output format that `main` does not know. -/
def bogusOutputArgs : Args := ⟨"t", 50, 1000, "bogus", ""⟩

/-! ## Lemmas on the two loops of the query builder -/

theorem join_cons_eq (a : String) (l : List String) :
    String.join (a :: l) = a ++ String.join l := by
  have key : ∀ (l : List String) (acc : String),
      List.foldl (fun r s => r ++ s) acc l = acc ++ List.foldl (fun r s => r ++ s) "" l := by
    intro l
    induction l with
    | nil => intro acc; simp
    | cons x xs ih =>
        intro acc
        simp only [List.foldl_cons]
        rw [ih (acc ++ x), ih ("" ++ x), String.empty_append, String.append_assoc]
  show List.foldl (fun r s => r ++ s) "" (a :: l) = a ++ List.foldl (fun r s => r ++ s) "" l
  simp only [List.foldl_cons]
  rw [key l ("" ++ a), String.empty_append]

theorem locationQueryLoop_succ (rest : List String) (i : Nat) (acc : String) :
    locationQueryLoop rest (i + 1) acc =
      String.intercalate.go acc " OR " (rest.map fun l => "location:" ++ l) := by
  induction rest generalizing i acc with
  | nil => simp [locationQueryLoop, String.intercalate.go]
  | cons x xs ih =>
      simp only [locationQueryLoop, List.map_cons, String.intercalate.go]
      rw [if_pos (Nat.succ_pos i), ih]

theorem locationQueryLoop_zero (locations : List String) :
    locationQueryLoop locations 0 "" =
      " OR ".intercalate (locations.map fun l => "location:" ++ l) := by
  cases locations with
  | nil => simp [locationQueryLoop, String.intercalate]
  | cons x xs =>
      simp only [locationQueryLoop, List.map_cons, String.intercalate]
      rw [if_neg (Nat.lt_irrefl 0), locationQueryLoop_succ, String.empty_append]

theorem excludeLoop_eq (excludeLocations : List String) (query : String) :
    excludeLoop excludeLocations query =
      query ++ String.join (excludeLocations.map fun x => " -location:" ++ x) := by
  induction excludeLocations generalizing query with
  | nil => simp [excludeLoop, String.join]
  | cons x xs ih =>
      simp only [excludeLoop, List.map_cons]
      rw [ih, join_cons_eq]
      simp only [String.append_assoc]

theorem buildQuery_eq_specQuery (options : Options) :
    buildQuery options = specQuery options.Locations options.ExcludeLocations := by
  have h15 : "type:user followers:>=" ++ fmtD minFollowers = "type:user followers:>=15" := by
    decide
  unfold buildQuery specQuery
  simp only [h15]
  rw [excludeLoop_eq]
  by_cases h : options.Locations.length > 0
  · simp only [if_pos h, locationQueryLoop_zero, String.append_assoc]
  · simp only [if_neg h, String.append_empty]

theorem GithubTop_searches (SearchUsers : SearchClient) (options : Options)
    (h : options.Token ≠ "") :
    (GithubTop SearchUsers options).searches =
      [⟨options.Token, ⟨buildQuery options, "followers", "desc", options.ConsiderNum⟩⟩] := by
  unfold GithubTop
  simp only [if_neg h]
  split <;> rfl

/-! ## The query builder -/

/-- C1: with a non-empty token, the one query text `GithubTop` hands to the
search client is the base clause `type:user followers:>=15`, then the
OR-group of the locations in input order when there is one, then a
` -location:` clause for each excluded location in input order, whether or not
there are locations; the strings are used as they are. -/
theorem GithubTop_query_text (SearchUsers : SearchClient) (options : Options)
    (h : options.Token ≠ "") :
    (GithubTop SearchUsers options).searches.map (fun call => call.query.Q) =
      [specQuery options.Locations options.ExcludeLocations] := by
  rw [GithubTop_searches SearchUsers options h, ← buildQuery_eq_specQuery]
  rfl

theorem GithubTop_query_text_witness :
    "t" ≠ "" ∧
    (GithubTop clientTwo ⟨"t", ["a b", "a b"], ["x:y"], 50, 1000, "", ""⟩).searches.map
        (fun call => call.query.Q) =
      [specQuery ["a b", "a b"] ["x:y"]] :=
  ⟨by decide,
   GithubTop_query_text clientTwo ⟨"t", ["a b", "a b"], ["x:y"], 50, 1000, "", ""⟩ (by decide)⟩

/-- C2: with the minimum follower count 15 of the source, the locations
`nepal`, `pokhara` and the excluded location `china`, the query text
`GithubTop` hands to the client is exactly
`type:user followers:>=15 (location:nepal OR location:pokhara) -location:china`. -/
theorem GithubTop_query_example (SearchUsers : SearchClient) (token : String)
    (amount considerNum : Int) (presetTitle presetChecksum : String) (h : token ≠ "") :
    minFollowers = 15 ∧
    (GithubTop SearchUsers
        ⟨token, ["nepal", "pokhara"], ["china"], amount, considerNum, presetTitle,
         presetChecksum⟩).searches.map (fun call => call.query.Q) =
      ["type:user followers:>=15 (location:nepal OR location:pokhara) -location:china"] := by
  refine ⟨rfl, ?_⟩
  rw [GithubTop_searches SearchUsers _ h, List.map_cons, List.map_nil, buildQuery_eq_specQuery]
  show [specQuery ["nepal", "pokhara"] ["china"]] = _
  decide

theorem GithubTop_query_example_witness :
    "t" ≠ "" ∧ minFollowers = 15 ∧
    (GithubTop clientTwo ⟨"t", ["nepal", "pokhara"], ["china"], 50, 1000, "", ""⟩).searches.map
        (fun call => call.query.Q) =
      ["type:user followers:>=15 (location:nepal OR location:pokhara) -location:china"] :=
  ⟨by decide, GithubTop_query_example clientTwo "t" 50 1000 "" "" (by decide)⟩

/-- C3: when both location lists are empty, the query text `GithubTop` hands to
the client is the base clause alone, `type:user followers:>=` followed by the
minimum follower count in decimal, which is `type:user followers:>=15`: no
parentheses and no trailing blank. -/
theorem GithubTop_query_no_locations (SearchUsers : SearchClient) (options : Options)
    (h : options.Token ≠ "") (hl : options.Locations = [])
    (he : options.ExcludeLocations = []) :
    (GithubTop SearchUsers options).searches.map (fun call => call.query.Q) =
        ["type:user followers:>=" ++ fmtD minFollowers] ∧
    "type:user followers:>=" ++ fmtD minFollowers = "type:user followers:>=15" := by
  refine ⟨?_, by decide⟩
  rw [GithubTop_searches SearchUsers options h]
  simp [buildQuery, hl, he, excludeLoop]

theorem GithubTop_query_no_locations_witness :
    (GithubTop clientTwo ⟨"t", [], [], 50, 1000, "Nepal", "00"⟩).searches.map
        (fun call => call.query.Q) =
        ["type:user followers:>=" ++ fmtD minFollowers] ∧
    "type:user followers:>=" ++ fmtD minFollowers = "type:user followers:>=15" :=
  GithubTop_query_no_locations clientTwo ⟨"t", [], [], 50, 1000, "Nepal", "00"⟩ (by decide) rfl rfl

/-! ## Errors of `GithubTop` -/

/-- C4: with an empty token `GithubTop` returns the error
`Missing GITHUB token` and the empty result set without any call of the
client. With a non-empty token it calls `SearchUsers` once, and the error it
returns is the error of that call (none when the call reports none); with an
error the result set is the empty one, without one it is the client's. -/
theorem GithubTop_error (SearchUsers : SearchClient) (options : Options) :
    (options.Token = "" →
      GithubTop SearchUsers options =
        ⟨[], GithubSearchResults.zero, some "Missing GITHUB token"⟩) ∧
    (options.Token ≠ "" →
      ∃ q : UserSearchQuery,
        (GithubTop SearchUsers options).searches = [⟨options.Token, q⟩] ∧
        (GithubTop SearchUsers options).err = (SearchUsers options.Token q).2 ∧
        ((SearchUsers options.Token q).2 ≠ none →
          (GithubTop SearchUsers options).results = GithubSearchResults.zero) ∧
        ((SearchUsers options.Token q).2 = none →
          (GithubTop SearchUsers options).results = (SearchUsers options.Token q).1)) := by
  constructor
  · intro h
    unfold GithubTop
    simp only [if_pos h]
  · intro h
    refine ⟨⟨buildQuery options, "followers", "desc", options.ConsiderNum⟩, ?_⟩
    unfold GithubTop
    simp only [if_neg h]
    split
    next users err heq => simp [heq]
    next users heq => simp [heq]

theorem GithubTop_error_witness :
    GithubTop clientFails ⟨"", ["nepal"], [], 50, 1000, "", ""⟩ =
        ⟨[], GithubSearchResults.zero, some "Missing GITHUB token"⟩ ∧
    ∃ q : UserSearchQuery,
      (GithubTop clientFails ⟨"t", ["nepal"], [], 50, 1000, "", ""⟩).searches = [⟨"t", q⟩] ∧
      (GithubTop clientFails ⟨"t", ["nepal"], [], 50, 1000, "", ""⟩).err =
        (clientFails "t" q).2 ∧
      ((clientFails "t" q).2 ≠ none →
        (GithubTop clientFails ⟨"t", ["nepal"], [], 50, 1000, "", ""⟩).results =
          GithubSearchResults.zero) ∧
      ((clientFails "t" q).2 = none →
        (GithubTop clientFails ⟨"t", ["nepal"], [], 50, 1000, "", ""⟩).results =
          (clientFails "t" q).1) :=
  ⟨(GithubTop_error clientFails ⟨"", ["nepal"], [], 50, 1000, "", ""⟩).1 rfl,
   (GithubTop_error clientFails ⟨"t", ["nepal"], [], 50, 1000, "", ""⟩).2 (by decide)⟩

/-! ## The search request -/

/-- C6, as the code has it: with a non-empty token the one request `GithubTop`
issues is sorted by `followers` in `desc` order and its maximum result count is
`ConsiderNum` itself, whatever its value. -/
theorem GithubTop_request (SearchUsers : SearchClient) (options : Options)
    (h : options.Token ≠ "") :
    (GithubTop SearchUsers options).searches.map
        (fun call => (call.query.Sort_, call.query.Order, call.query.MaxUsers)) =
      [("followers", "desc", options.ConsiderNum)] := by
  rw [GithubTop_searches SearchUsers options h]
  rfl

theorem GithubTop_request_witness :
    (GithubTop clientTwo ⟨"t", ["nepal"], [], 50, 700, "", ""⟩).searches.map
        (fun call => (call.query.Sort_, call.query.Order, call.query.MaxUsers)) =
      [("followers", "desc", 700)] :=
  GithubTop_request clientTwo ⟨"t", ["nepal"], [], 50, 700, "", ""⟩ (by decide)

/-- C6 fails as stated: with `ConsiderNum = 2500` the request `GithubTop`
issues asks for 2500 results, which is more than 1000. -/
theorem GithubTop_request_not_clamped :
    (GithubTop clientTwo ⟨"t", ["nepal"], [], 50, 2500, "", ""⟩).searches.map
        (fun call => call.query.MaxUsers) = [2500] ∧
    ¬ ∀ call ∈ (GithubTop clientTwo ⟨"t", ["nepal"], [], 50, 2500, "", ""⟩).searches,
        call.query.MaxUsers ≤ 1000 := by
  decide

/-! ## What `main` hands to the renderer -/

theorem GithubTop_no_error (SearchUsers : SearchClient) (options : Options)
    (h : (GithubTop SearchUsers options).err = none) :
    options.Token ≠ "" ∧
    SearchUsers options.Token ⟨buildQuery options, "followers", "desc", options.ConsiderNum⟩ =
      ((GithubTop SearchUsers options).results, none) := by
  unfold GithubTop at h ⊢
  by_cases htok : options.Token = ""
  · simp [htok] at h
  · refine ⟨htok, ?_⟩
    simp only [if_neg htok] at h ⊢
    split at h
    next users err heq => simp at h
    next users heq => simp [heq]

theorem writeReport_render (w : World) (a : Args) (format : Format)
    (data : GithubSearchResults) (opts : Options) (format1 : Format)
    (data1 : GithubSearchResults) (dest1 : Destination) (opts1 : Options)
    (h : Event.render format1 data1 dest1 opts1 ∈ (writeReport w a format data opts).events) :
    format1 = format ∧ data1 = data ∧ opts1 = opts := by
  unfold writeReport at h
  by_cases hf : a.fileName ≠ ""
  · simp only [if_pos hf] at h
    cases hc : w.osCreate a.fileName with
    | some err => simp [hc] at h
    | none =>
        cases hr : w.render format data (Destination.file a.fileName) opts <;>
          simp [hc, hr] at h <;> exact ⟨h.1, h.2.1, h.2.2.2⟩
  · simp only [if_neg hf] at h
    cases hr : w.render format data Destination.stdout opts <;>
      simp [hr] at h <;> exact ⟨h.1, h.2.1, h.2.2.2⟩

theorem writeReport_calls (w : World) (a : Args) (format : Format)
    (data : GithubSearchResults) (opts : Options) (e : Event)
    (h : e ∈ (writeReport w a format data opts).events) :
    (∀ o, e ≠ Event.githubTop o) ∧ (∀ c, e ≠ Event.search c) := by
  unfold writeReport at h
  by_cases hf : a.fileName ≠ ""
  · simp only [if_pos hf] at h
    cases hc : w.osCreate a.fileName with
    | some err => simp [hc] at h; subst h; simp
    | none =>
        cases hr : w.render format data (Destination.file a.fileName) opts <;>
          simp [hc, hr] at h
        · rcases h with h | h | h <;> subst h <;> simp
        · rcases h with h | h <;> subst h <;> simp
  · simp only [if_neg hf] at h
    cases hr : w.render format data Destination.stdout opts <;> simp [hr] at h
    · rcases h with h | h <;> subst h <;> simp
    · subst h; simp

theorem main_render_inv (w : World) (a : Args) (format : Format)
    (data : GithubSearchResults) (dest : Destination) (opts : Options)
    (h : Event.render format data dest opts ∈ (main w a).events) :
    selectFormat a.outputOpt = some format ∧ opts = runOptions w a ∧
    (GithubTop w.SearchUsers (runOptions w a)).err = none ∧
    data = (GithubTop w.SearchUsers (runOptions w a)).results := by
  unfold main at h
  split at h
  · simp at h
  · next format0 hf =>
    simp only at h
    split at h
    · simp at h
    · next herr =>
      simp only [List.cons_append, List.mem_cons, List.mem_append, List.mem_map] at h
      rcases h with h | ⟨c, _, h⟩ | h
      · cases h
      · cases h
      · have := writeReport_render w a format0 _ _ format data dest opts h
        exact ⟨by rw [hf, this.1], this.2.2, herr, this.2.1⟩

theorem main_events_of_fetched (w : World) (a : Args) (format : Format)
    (hf : selectFormat a.outputOpt = some format)
    (herr : (GithubTop w.SearchUsers (runOptions w a)).err = none) :
    (main w a).events =
      Event.githubTop (runOptions w a) ::
        (GithubTop w.SearchUsers (runOptions w a)).searches.map Event.search ++
          (writeReport w a format (GithubTop w.SearchUsers (runOptions w a)).results
            (runOptions w a)).events := by
  unfold main
  simp only [hf, herr, List.cons_append]

theorem main_events_of_format (w : World) (a : Args) (format : Format)
    (hf : selectFormat a.outputOpt = some format) :
    ∃ tail : List Event,
      (main w a).events =
        Event.githubTop (runOptions w a) ::
          (GithubTop w.SearchUsers (runOptions w a)).searches.map Event.search ++ tail ∧
      ∀ e ∈ tail, (∀ o, e ≠ Event.githubTop o) ∧ (∀ c, e ≠ Event.search c) := by
  cases herr : (GithubTop w.SearchUsers (runOptions w a)).err with
  | some err =>
      refine ⟨[], ?_, by simp⟩
      unfold main
      simp only [hf, herr, List.append_nil]
  | none =>
      refine ⟨_, main_events_of_fetched w a format hf herr, ?_⟩
      intro e he
      exact writeReport_calls w a format _ _ e he

theorem main_events_unrecognized (w : World) (a : Args)
    (hf : selectFormat a.outputOpt = none) :
    main w a = ⟨[], some ("Unrecognized output format: " ++ a.outputOpt)⟩ := by
  unfold main
  simp only [hf]

theorem selectFormat_eq_none (outputOpt : String) :
    selectFormat outputOpt = none ↔
      (outputOpt ≠ "plain" ∧ outputOpt ≠ "yaml" ∧ outputOpt ≠ "csv") := by
  unfold selectFormat
  by_cases h1 : outputOpt = "plain"
  · simp [h1]
  · by_cases h2 : outputOpt = "yaml"
    · simp [h2]
    · by_cases h3 : outputOpt = "csv"
      · simp [h3]
      · simp [h1, h2, h3]

/-- C5, as the code has it: whatever the display amount, the result set `main`
hands to the renderer is the whole result set the search client returned, in
the client's order; the amount only travels along in the options. -/
theorem main_render_whole_result (w : World) (a : Args) (format : Format)
    (data : GithubSearchResults) (dest : Destination) (opts : Options)
    (h : Event.render format data dest opts ∈ (main w a).events) :
    ∃ q : UserSearchQuery,
      Event.search ⟨a.token, q⟩ ∈ (main w a).events ∧
      w.SearchUsers a.token q = (data, none) ∧ opts.Amount = a.amount := by
  obtain ⟨hf, hopts, herr, hdata⟩ := main_render_inv w a format data dest opts h
  obtain ⟨htok, hcall⟩ := GithubTop_no_error w.SearchUsers (runOptions w a) herr
  refine ⟨⟨buildQuery (runOptions w a), "followers", "desc", (runOptions w a).ConsiderNum⟩,
    ?_, ?_, ?_⟩
  · rw [main_events_of_fetched w a format hf herr,
      GithubTop_searches w.SearchUsers (runOptions w a) htok]
    simp [runOptions]
  · rw [hdata]
    exact hcall
  · rw [hopts]
    rfl

theorem main_render_whole_result_witness :
    ∃ q : UserSearchQuery,
      Event.search ⟨showOneArgs.token, q⟩ ∈ (main sampleWorld showOneArgs).events ∧
      sampleWorld.SearchUsers showOneArgs.token q = (twoUsers, none) ∧
      (runOptions sampleWorld showOneArgs).Amount = showOneArgs.amount :=
  main_render_whole_result sampleWorld showOneArgs Format.PlainOutput twoUsers
    Destination.stdout (runOptions sampleWorld showOneArgs) (by decide)

/-- C5 fails as stated: with a display amount of 1 and a search that returns
two users, the renderer is handed both users, not `min 1 2 = 1` of them. -/
theorem main_render_not_truncated :
    showOneArgs.amount = 1 ∧
    (∀ q, (sampleWorld.SearchUsers showOneArgs.token q).1.users.length = 2) ∧
    ∃ data : GithubSearchResults,
      Event.render Format.PlainOutput data Destination.stdout
          (runOptions sampleWorld showOneArgs) ∈ (main sampleWorld showOneArgs).events ∧
      data.users.length = 2 ∧
      (data.users.length : Int) ≠ min showOneArgs.amount 2 := by
  refine ⟨rfl, fun _ => rfl, twoUsers, by decide, rfl, by decide⟩

/-! ## The format dispatch of `main` -/

/-- C9: a run ends in a fatal error without `GithubTop` having been called
exactly when the `-output` string is none of `plain`, `yaml` and `csv`, compared
as they are; `yaml` has a branch of its own that selects the YAML renderer, and
a string that differs in case or by a blank is not recognized. -/
theorem main_format_dispatch (w : World) (a : Args) :
    (((∃ msg, (main w a).fatal = some msg) ∧
        ∀ opts, Event.githubTop opts ∉ (main w a).events) ↔
      (a.outputOpt ≠ "plain" ∧ a.outputOpt ≠ "yaml" ∧ a.outputOpt ≠ "csv")) ∧
    selectFormat "plain" = some Format.PlainOutput ∧
    selectFormat "csv" = some Format.CsvOutput ∧
    selectFormat "yaml" = some Format.YamlOutput ∧
    selectFormat "Plain" = none ∧ selectFormat "CSV" = none ∧
    selectFormat " plain" = none ∧ selectFormat "csv " = none ∧ selectFormat "" = none := by
  refine ⟨?_, by decide, by decide, by decide, by decide, by decide, by decide, by decide,
    by decide⟩
  rw [← selectFormat_eq_none]
  constructor
  · rintro ⟨_, hno⟩
    cases hf : selectFormat a.outputOpt with
    | none => rfl
    | some format =>
        obtain ⟨tail, hev, _⟩ := main_events_of_format w a format hf
        exact absurd (by rw [hev]; simp) (hno (runOptions w a))
  · intro hf
    rw [main_events_unrecognized w a hf]
    exact ⟨⟨_, rfl⟩, by simp⟩

/-! ## The preset of a run -/

/-- C10, as the code has it: a run with a non-empty token and an output format
that `main` accepts (`plain`, `yaml` or `csv`) searches with the `nepal` preset;
every search any run issues has that query text, which has no `-location:`
clause and is the same for every amount, consideration cap, preset title,
checksum and accepted output format. A run whose output format is not
accepted issues no search. -/
theorem main_always_nepal (w : World) (a : Args) :
    (∀ call, Event.search call ∈ (main w a).events →
      call.query.Q =
        "type:user followers:>=15 (location:nepal OR location:kathmandu OR location:pokhara OR location:lalitpur OR location:bharatpur OR location:birgunj OR location:biratnagar OR location:janakpur OR location:ghorahi)") ∧
    (a.token ≠ "" → selectFormat a.outputOpt ≠ none →
      Event.search
          ⟨a.token,
           ⟨"type:user followers:>=15 (location:nepal OR location:kathmandu OR location:pokhara OR location:lalitpur OR location:bharatpur OR location:birgunj OR location:biratnagar OR location:janakpur OR location:ghorahi)",
            "followers", "desc", a.considerNum⟩⟩ ∈ (main w a).events) ∧
    ¬ ("-location:".data <:+:
        "type:user followers:>=15 (location:nepal OR location:kathmandu OR location:pokhara OR location:lalitpur OR location:bharatpur OR location:birgunj OR location:biratnagar OR location:janakpur OR location:ghorahi)".data) ∧
    (selectFormat a.outputOpt = none → ∀ call, Event.search call ∉ (main w a).events) := by
  have hq : buildQuery (runOptions w a) =
      "type:user followers:>=15 (location:nepal OR location:kathmandu OR location:pokhara OR location:lalitpur OR location:bharatpur OR location:birgunj OR location:biratnagar OR location:janakpur OR location:ghorahi)" := by
    rw [buildQuery_eq_specQuery]
    show specQuery (Preset "nepal").include_ (Preset "nepal").exclude = _
    decide
  refine ⟨?_, ?_, by decide, ?_⟩
  · intro call hcall
    cases hf : selectFormat a.outputOpt with
    | none => rw [main_events_unrecognized w a hf] at hcall; simp at hcall
    | some format =>
        obtain ⟨tail, hev, htail⟩ := main_events_of_format w a format hf
        rw [hev] at hcall
        simp only [List.cons_append, List.mem_cons, List.mem_append, List.mem_map] at hcall
        rcases hcall with h | ⟨c, hc, h⟩ | h
        · cases h
        · have hcc : c = call := by injection h
          subst hcc
          by_cases htok : (runOptions w a).Token = ""
          · simp [GithubTop, htok] at hc
          · rw [GithubTop_searches w.SearchUsers _ htok] at hc
            simp at hc
            rw [hc]
            exact hq
        · exact absurd rfl ((htail _ h).2 call)
  · intro htok hf
    cases hf2 : selectFormat a.outputOpt with
    | none => exact absurd hf2 hf
    | some format =>
        obtain ⟨tail, hev, _⟩ := main_events_of_format w a format hf2
        have htok2 : (runOptions w a).Token ≠ "" := htok
        rw [hev, GithubTop_searches w.SearchUsers _ htok2, hq]
        simp [runOptions]
  · intro hf call hcall
    rw [main_events_unrecognized w a hf] at hcall
    simp at hcall

theorem main_always_nepal_witness :
    Event.search
        ⟨"t",
         ⟨"type:user followers:>=15 (location:nepal OR location:kathmandu OR location:pokhara OR location:lalitpur OR location:bharatpur OR location:birgunj OR location:biratnagar OR location:janakpur OR location:ghorahi)",
          "followers", "desc", 1000⟩⟩ ∈ (main sampleWorld showOneArgs).events :=
  (main_always_nepal sampleWorld showOneArgs).2.1 (by decide) (by decide)

/-- C10 fails as stated: with the token `t` and the output format `bogus` the
run ends in `log.Fatal` before `GithubTop` is called, so no search is issued at
all, although the token is not empty. -/
theorem main_bogus_output_no_search :
    bogusOutputArgs.token ≠ "" ∧
    main sampleWorld bogusOutputArgs = ⟨[], some "Unrecognized output format: bogus"⟩ ∧
    ¬ ∃ call, Event.search call ∈ (main sampleWorld bogusOutputArgs).events := by
  have h : main sampleWorld bogusOutputArgs =
      ⟨[], some "Unrecognized output format: bogus"⟩ := by decide
  refine ⟨by decide, h, ?_⟩
  rintro ⟨call, hcall⟩
  rw [h] at hcall
  simp at hcall

/-! ## The text a checksum is taken of -/

theorem fmtElems_cons_data (x : String) (rest : List String) :
    (fmtElems (x :: rest)).data = x.data ++ rest.flatMap fun e => ' ' :: e.data := by
  induction rest generalizing x with
  | nil => simp [fmtElems]
  | cons y r ih =>
      have h : fmtElems (x :: y :: r) = x ++ " " ++ fmtElems (y :: r) := rfl
      rw [h, String.data_append, String.data_append, ih y]
      simp

theorem fmtElems_length (x : String) (rest : List String) :
    (fmtElems (x :: rest)).data.length + 1 =
      ((x :: rest).map fun e => e.data.length + 1).sum := by
  induction rest generalizing x with
  | nil => simp [fmtElems]
  | cons y r ih =>
      have h : fmtElems (x :: y :: r) = x ++ " " ++ fmtElems (y :: r) := rfl
      have h2 := ih y
      rw [h, String.data_append, String.data_append, List.length_append, List.length_append]
      simp only [List.map_cons, List.sum_cons] at h2 ⊢
      generalize (fmtElems (y :: r)).data.length = n at h2 ⊢
      simp only [List.length_singleton]
      omega

theorem fmtElems_changed (pre post : List String) (x y : String)
    (h : fmtElems (pre ++ x :: post) = fmtElems (pre ++ y :: post)) : x = y := by
  have hd := congrArg String.data h
  cases pre with
  | nil =>
      simp only [List.nil_append, fmtElems_cons_data] at hd
      exact String.ext (List.append_cancel_right hd)
  | cons p ps =>
      simp only [List.cons_append, fmtElems_cons_data, List.flatMap_append,
        List.flatMap_cons] at hd
      have h1 := List.append_cancel_left (List.append_cancel_left hd)
      have h2 : ' ' :: x.data = ' ' :: y.data := List.append_cancel_right h1
      exact String.ext (List.cons.inj h2).2

theorem fmtElems_added (pre post : List String) (x : String)
    (h : fmtElems (pre ++ post) = fmtElems (pre ++ x :: post)) :
    pre ++ post = [] ∧ x = "" := by
  cases hl : pre ++ post with
  | nil =>
      have hpre : pre = [] := (List.append_eq_nil.mp hl).1
      have hpost : post = [] := (List.append_eq_nil.mp hl).2
      subst hpre hpost
      refine ⟨rfl, ?_⟩
      simp only [List.nil_append, fmtElems] at h
      exact h.symm
  | cons z zs =>
      exfalso
      have hlen := congrArg (fun s : String => s.data.length + 1) h
      simp only at hlen
      have hsum : ((pre ++ x :: post).map fun e => e.data.length + 1).sum =
          ((pre ++ post).map fun e => e.data.length + 1).sum + (x.data.length + 1) := by
        simp only [List.map_append, List.map_cons, List.sum_append, List.sum_cons]
        omega
      cases hl2 : pre ++ x :: post with
      | nil => simp at hl2
      | cons v vs =>
          rw [hl, hl2, fmtElems_length, fmtElems_length, ← hl, ← hl2, hsum] at hlen
          omega

theorem fmtPlusV_exclude (p q : QueryPreset) (ht : p.title = q.title)
    (hi : p.include_ = q.include_) (h : fmtPlusV p = fmtPlusV q) :
    fmtElems p.exclude = fmtElems q.exclude := by
  have hd := congrArg String.data h
  simp only [fmtPlusV, fmtSlice, ht, hi, String.data_append] at hd
  have h1 := List.append_cancel_right hd
  have h2 := List.append_cancel_left h1
  have h3 := List.append_cancel_right h2
  have h4 := List.append_cancel_left h3
  exact String.ext h4

theorem hexDigit_inj (m n : Nat) (hm : m < 16) (hn : n < 16)
    (h : hexDigit m = hexDigit n) : m = n := by
  have key : ∀ i j : Fin 16, hexDigit i.val = hexDigit j.val → i = j := by decide
  have := key ⟨m, hm⟩ ⟨n, hn⟩ h
  exact congrArg Fin.val this

theorem fmtX_inj (bs cs : List Nat) (hb : ∀ b ∈ bs, b < 256) (hc : ∀ c ∈ cs, c < 256)
    (h : fmtX bs = fmtX cs) : bs = cs := by
  have hd : (bs.flatMap fun b => [hexDigit (b / 16 % 16), hexDigit (b % 16)]) =
      cs.flatMap fun b => [hexDigit (b / 16 % 16), hexDigit (b % 16)] :=
    congrArg String.data h
  clear h
  induction bs generalizing cs with
  | nil =>
      cases cs with
      | nil => rfl
      | cons c cs => simp at hd
  | cons b bs ih =>
      cases cs with
      | nil => simp at hd
      | cons c cs =>
          simp only [List.flatMap_cons, List.cons_append, List.nil_append, List.cons.injEq] at hd
          obtain ⟨h1, h2, h3⟩ := hd
          have hb1 : b < 256 := hb b (List.mem_cons_self _ _)
          have hc1 : c < 256 := hc c (List.mem_cons_self _ _)
          have e1 := hexDigit_inj _ _ (Nat.mod_lt _ (by decide)) (Nat.mod_lt _ (by decide)) h1
          have e2 := hexDigit_inj _ _ (Nat.mod_lt _ (by decide)) (Nat.mod_lt _ (by decide)) h2
          have hbc : b = c := by omega
          have htail := ih cs (fun x hx => hb x (List.mem_cons_of_mem _ hx))
            (fun x hx => hc x (List.mem_cons_of_mem _ hx)) h3
          rw [hbc, htail]

/-- C7, as the code has it: for two preset definitions that differ only in
one excluded location, other than the pair whose exclude lists are `[]` and
`[""]`, the text that is hashed differs, and the checksums differ exactly when
the digests of the two texts do (the hexadecimal form loses nothing of a
digest of bytes). -/
theorem fmtPlusV_differs (p q : QueryPreset) (h : DifferInOneExclude p q)
    (h1 : ¬ (p.exclude = [] ∧ q.exclude = [""]))
    (h2 : ¬ (p.exclude = [""] ∧ q.exclude = [])) :
    fmtPlusV p ≠ fmtPlusV q ∧
    ∀ sha256 : String → List Nat, (∀ s, ∀ b ∈ sha256 s, b < 256) →
      (checksumOf sha256 p = checksumOf sha256 q ↔
        sha256 (fmtPlusV p) = sha256 (fmtPlusV q)) := by
  constructor
  · intro heq
    obtain ⟨ht, hi, pre, post, x, y, hcase⟩ := h
    have he := fmtPlusV_exclude p q ht hi heq
    rcases hcase with ⟨hp, hq, hxy⟩ | ⟨hp, hq⟩ | ⟨hp, hq⟩
    · rw [hp, hq] at he
      exact hxy (fmtElems_changed pre post x y he)
    · rw [hp, hq] at he
      obtain ⟨hnil, hx⟩ := fmtElems_added pre post x he
      have hpre : pre = [] := (List.append_eq_nil.mp hnil).1
      have hpost : post = [] := (List.append_eq_nil.mp hnil).2
      subst hpre hpost hx
      exact h1 ⟨hp, hq⟩
    · rw [hp, hq] at he
      obtain ⟨hnil, hx⟩ := fmtElems_added pre post x he.symm
      have hpre : pre = [] := (List.append_eq_nil.mp hnil).1
      have hpost : post = [] := (List.append_eq_nil.mp hnil).2
      subst hpre hpost hx
      exact h2 ⟨hp, hq⟩
  · intro sha256 hbytes
    constructor
    · intro hc
      exact fmtX_inj _ _ (hbytes _) (hbytes _) hc
    · intro hs
      unfold checksumOf
      rw [hs]

theorem fmtPlusV_differs_witness :
    fmtPlusV ⟨"Nepal", ["nepal"], ["new delhi"]⟩ ≠ fmtPlusV ⟨"Nepal", ["nepal"], ["delhi"]⟩ ∧
    ∀ sha256 : String → List Nat, (∀ s, ∀ b ∈ sha256 s, b < 256) →
      (checksumOf sha256 ⟨"Nepal", ["nepal"], ["new delhi"]⟩ =
          checksumOf sha256 ⟨"Nepal", ["nepal"], ["delhi"]⟩ ↔
        sha256 (fmtPlusV ⟨"Nepal", ["nepal"], ["new delhi"]⟩) =
          sha256 (fmtPlusV ⟨"Nepal", ["nepal"], ["delhi"]⟩)) :=
  fmtPlusV_differs ⟨"Nepal", ["nepal"], ["new delhi"]⟩ ⟨"Nepal", ["nepal"], ["delhi"]⟩
    ⟨rfl, rfl, [], [], "new delhi", "delhi", Or.inl ⟨rfl, rfl, by decide⟩⟩
    (by decide) (by decide)

/-- C7 fails as stated: the preset `nepal` and the same preset with the one
excluded location `""` differ only in one excluded location, yet the text that
is hashed is the same for both, and so is the checksum, whatever the digest. -/
theorem checksum_same_for_empty_exclude :
    DifferInOneExclude (Preset "nepal") ⟨"Nepal", (Preset "nepal").include_, [""]⟩ ∧
    (Preset "nepal").exclude = [] ∧
    fmtPlusV (Preset "nepal") = fmtPlusV ⟨"Nepal", (Preset "nepal").include_, [""]⟩ ∧
    ∀ sha256 : String → List Nat,
      checksumOf sha256 (Preset "nepal") =
        checksumOf sha256 ⟨"Nepal", (Preset "nepal").include_, [""]⟩ := by
  have ht : fmtPlusV (Preset "nepal") =
      fmtPlusV ⟨"Nepal", (Preset "nepal").include_, [""]⟩ := by decide
  refine ⟨⟨rfl, rfl, [], [], "", "", Or.inr (Or.inl ⟨rfl, rfl⟩)⟩, rfl, ht, ?_⟩
  intro sha256
  unfold checksumOf
  rw [ht]

/-! ## The title of a preset -/

theorem titleLoop_length (u : UnicodeTables) (prev : Char) (l : List Char) :
    (titleLoop u prev l).length = l.length := by
  induction l generalizing prev with
  | nil => rfl
  | cons r rest ih => simp [titleLoop, ih]

theorem titleLoop_getElem (u : UnicodeTables) (prev : Char) (l : List Char) (i : Nat)
    (before c : Char) (hb : (prev :: l)[i]? = some before) (hc : l[i]? = some c) :
    (titleLoop u prev l)[i]? =
      some (if isSeparator u before then unicodeToTitle u c else c) := by
  induction l generalizing prev i with
  | nil => simp at hc
  | cons r rest ih =>
      cases i with
      | zero =>
          simp only [List.getElem?_cons_zero, Option.some.injEq] at hb hc
          subst hb hc
          simp [titleLoop]
      | succ k =>
          simp only [List.getElem?_cons_succ] at hb hc
          simp only [titleLoop, List.getElem?_cons_succ]
          exact ih r k hb hc

theorem Preset_eq (name : String) :
    Preset name = if name = "nepal" then
        ⟨"Nepal",
         ["nepal", "kathmandu", "pokhara", "lalitpur", "bharatpur", "birgunj", "biratnagar",
          "janakpur", "ghorahi"], []⟩
      else ⟨"", [], []⟩ := by
  by_cases h : name = "nepal"
  · subst h
    rfl
  · have hl : PRESETS.lookup name = none := by
      have hb : (name == "nepal") = false := by simp [h]
      simp [PRESETS, List.lookup, hb]
    simp [Preset, hl, h]

/-- C8: `PresetTitle` returns the title registered in `PRESETS` for the name
when that title is not empty, and otherwise, for a name that is not registered
or registered with an empty title, `strings.Title` of the name: the text of
the same length in which a rune that follows a separator, or is the first, is
title-cased and every other rune is unchanged. For `nepal` it is `Nepal`, for
the empty name the empty text; every other name gets its capitalized form. -/
theorem PresetTitle_spec (u : UnicodeTables) (name : String) :
    (∀ preset, PRESETS.lookup name = some preset → preset.title ≠ "" →
      PresetTitle u name = preset.title) ∧
    ((PRESETS.lookup name = none ∨
        ∃ preset, PRESETS.lookup name = some preset ∧ preset.title = "") →
      PresetTitle u name = stringsTitle u name) ∧
    (stringsTitle u name).data.length = name.data.length ∧
    (∀ (i : Nat) (before c : Char), (' ' :: name.data)[i]? = some before →
      name.data[i]? = some c →
      (stringsTitle u name).data[i]? =
        some (if isSeparator u before then unicodeToTitle u c else c)) ∧
    PresetTitle u "nepal" = "Nepal" ∧ PresetTitle u "" = "" ∧
    (name ≠ "nepal" → PresetTitle u name = stringsTitle u name) ∧
    stringsTitle u "new delhi" = "New Delhi" := by
  refine ⟨?_, ?_, ?_, ?_, ?_, ?_, ?_, ?_⟩
  · intro preset hl ht
    simp [PresetTitle, Preset, hl, ht]
  · rintro (hl | ⟨preset, hl, ht⟩)
    · simp [PresetTitle, Preset, hl]
    · simp [PresetTitle, Preset, hl, ht]
  · exact titleLoop_length u ' ' name.data
  · intro i before c hb hc
    exact titleLoop_getElem u ' ' name.data i before c hb hc
  · simp [PresetTitle, Preset_eq]
  · simp [PresetTitle, Preset_eq]
    rfl
  · intro h
    simp [PresetTitle, Preset_eq, h]
  · rfl

theorem PresetTitle_spec_witness :
    PresetTitle asciiTables "nepal" = "Nepal" ∧
    PresetTitle asciiTables "kathmandu valley" = stringsTitle asciiTables "kathmandu valley" ∧
    stringsTitle asciiTables "kathmandu valley" = "Kathmandu Valley" :=
  ⟨(PresetTitle_spec asciiTables "nepal").1 (Preset "nepal") rfl (by decide),
   (PresetTitle_spec asciiTables "kathmandu valley").2.1 (Or.inl rfl),
   by decide⟩

end CommittersNepal
